import Mathlib

/-!
Shallow embedding of the IBC Tendermint light-client execution engine
(`ibc-clients/ics07-tendermint/src/client_state/execution.rs`) over an abstract
host store, together with theorems settling the behavioural claims about
`initialise`, `update_state`, `update_on_misbehaviour`, `update_on_upgrade`
and `prune_oldest_consensus_state`.

The execution functions are translated from the source file.  The data types
they operate on (`Height`, `Timestamp`, `ClientState`, `ConsensusState`) and
the host store behind the `CommonContext` and `ExecutionContext` traits are
declared in crates outside the provided sources, so they are modelled from the
specification; each such definition carries a note in its doc comment.
Machine integers are modelled as `Nat` and timestamp arithmetic as unbounded
natural arithmetic.
-/

namespace IbcTm

instance {ε α : Type} [DecidableEq ε] [DecidableEq α] :
    DecidableEq (Except ε α) := fun a b =>
  match a, b with
  | .ok x, .ok y => decidable_of_iff (x = y) (by simp)
  | .error x, .error y => decidable_of_iff (x = y) (by simp)
  | .ok _, .error _ => isFalse (by simp)
  | .error _, .ok _ => isFalse (by simp)

/-- Error kinds, following the taxonomy of the specification (section 7):
`decode` for malformed envelopes, `notFound` for absent consensus states,
`overflow` for timestamp arithmetic, `invalidTimestamp` for a host timestamp
that is not representable as a Tendermint time, `invalidHeader` for a header
rejected by `with_header`, and `other` for remaining context failures. -/
inductive ClientError where
  | decode
  | notFound
  | overflow
  | invalidTimestamp
  | invalidHeader
  | other
deriving DecidableEq, Repr

/-- Block height: a pair of revision number and revision height, compared
lexicographically (modelled from the spec, section 3: the `Height` type of the
client types crate is not under `src/`). -/
structure Height where
  revision_number : Nat
  revision_height : Nat
deriving DecidableEq, Repr

/-- Lexicographic order on heights: revision number first, then revision
height (the derived `Ord` of the source `Height` struct). -/
def Height.le (a b : Height) : Prop :=
  a.revision_number < b.revision_number ∨
    (a.revision_number = b.revision_number ∧ a.revision_height ≤ b.revision_height)

/-- Strict lexicographic order on heights. -/
def Height.lt (a b : Height) : Prop :=
  a.revision_number < b.revision_number ∨
    (a.revision_number = b.revision_number ∧ a.revision_height < b.revision_height)

instance Height.decLe : DecidableRel Height.le := fun a b =>
  decidable_of_iff
    (a.revision_number < b.revision_number ∨
      (a.revision_number = b.revision_number ∧ a.revision_height ≤ b.revision_height))
    Iff.rfl

instance Height.decLt : DecidableRel Height.lt := fun a b =>
  decidable_of_iff
    (a.revision_number < b.revision_number ∨
      (a.revision_number = b.revision_number ∧ a.revision_height < b.revision_height))
    Iff.rfl

/-- Modelled from the spec: `Height::min(revision_number)` of the client types
crate is not under `src/`.  Per sections 4.E.3 and 9 the reference
implementation produces the reserved frozen-marker pair with revision height 1
(never a legitimate block height), matching ibc-go where the frozen sentinel
is revision number 0, revision height 1. -/
def Height.min (revision_number : Nat) : Height :=
  { revision_number := revision_number, revision_height := 1 }

/-- Maximum of two heights in the lexicographic order. -/
def Height.max (a b : Height) : Height :=
  if Height.le a b then b else a

/-- Modelled from the spec, section 3: a wall-clock `Timestamp` of the
primitives crate (not under `src/`) whose conversion to a Tendermint-format
time may fail; `none` models the zero or epoch sentinel.  Times are counted in
nanoseconds as naturals. -/
structure Timestamp where
  time : Option Nat
deriving DecidableEq, Repr

/-- Conversion of a host timestamp to a Tendermint time; fails on the
sentinel value (spec section 4.F step 2). -/
def Timestamp.into_tm_time (t : Timestamp) : Option Nat :=
  t.time

/-- Trust level as a rational fraction (spec section 3). -/
structure TrustThreshold where
  numerator : Nat
  denominator : Nat
deriving DecidableEq, Repr

/-- Allow-update flags of the client state (spec sections 3 and 6). -/
structure AllowUpdate where
  after_expiry : Bool
  after_misbehaviour : Bool
deriving DecidableEq, Repr

/-- Modelled from the spec, section 3: the Tendermint `ClientState` record of
the client types crate is not under `src/`.  Proof specs and the upgrade path
are kept opaque as strings.  Durations are naturals in nanoseconds. -/
structure ClientStateType where
  chain_id : String
  trust_level : TrustThreshold
  trusting_period : Nat
  unbonding_period : Nat
  max_clock_drift : Nat
  latest_height : Height
  frozen_height : Option Height
  proof_specs : List String
  upgrade_path : List String
  allow_update : AllowUpdate
deriving DecidableEq, Repr

/-- Modelled from the spec, section 3: the Tendermint `ConsensusState` record
(commitment root, block timestamp, next validators hash); the root is kept as
an opaque string of bytes. -/
structure ConsensusStateType where
  root : String
  timestamp : Nat
  next_validators_hash : String
deriving DecidableEq, Repr

/-- Modelled from the spec: the Tendermint `Header` as consumed by the engine,
reduced to the fields the execution path reads: its height, its block time and
the hashes that seed the consensus state derived from it. -/
structure TmHeader where
  height : Height
  time : Nat
  app_hash : String
  next_validators_hash : String
deriving DecidableEq, Repr

/-- Modelled from the spec, sections 3 and 4.E.2: the `From<Header>`
conversion of the client types crate builds the consensus state carrying the
commitment root, timestamp and next validators hash of the header. -/
def ConsensusStateType.from_header (h : TmHeader) : ConsensusStateType :=
  { root := h.app_hash, timestamp := h.time,
    next_validators_hash := h.next_validators_hash }

/-- Modelled from the spec, section 4.D: `with_header(h)` returns a new client
state whose latest height is the maximum of the current latest height and the
header height, with all other parameters preserved.  The spec names no
concrete condition under which the `InvalidHeader` failure occurs, so the
model never produces it; the `Except` shape is kept for fidelity to the
signature. -/
def ClientStateType.with_header (cs : ClientStateType) (h : TmHeader) :
    Except ClientError ClientStateType :=
  .ok { cs with latest_height := Height.max cs.latest_height h.height }

/-- Modelled from the spec, section 4.D: `with_frozen_height(h)` returns a new
client state with the frozen height set. -/
def ClientStateType.with_frozen_height (cs : ClientStateType) (h : Height) :
    ClientStateType :=
  { cs with frozen_height := some h }

/-- Modelled from the spec, section 4.D: `zero_custom_fields()` nulls out the
client-chosen parameters (trust level, trusting period, clock drift,
allow-update flags, frozen height) ahead of the upgrade merge. -/
def ClientStateType.zero_custom_fields (cs : ClientStateType) : ClientStateType :=
  { cs with
    trust_level := { numerator := 0, denominator := 0 }
    trusting_period := 0
    max_clock_drift := 0
    frozen_height := none
    allow_update := { after_expiry := false, after_misbehaviour := false } }

/-- Modelled from the spec, section 3: the checked `ClientState` constructor
used by the upgrade merge validates the invariants on its parameters (the
trusting period strictly below the unbonding period, the trust level between
one third and one) and produces an unfrozen client state. -/
def ClientStateType.new (chain_id : String) (trust_level : TrustThreshold)
    (trusting_period unbonding_period max_clock_drift : Nat)
    (latest_height : Height) (proof_specs upgrade_path : List String)
    (allow_update : AllowUpdate) : Except ClientError ClientStateType :=
  if trusting_period < unbonding_period ∧ 0 < trust_level.denominator ∧
      trust_level.denominator ≤ 3 * trust_level.numerator ∧
      trust_level.numerator ≤ trust_level.denominator then
    .ok { chain_id := chain_id, trust_level := trust_level,
          trusting_period := trusting_period,
          unbonding_period := unbonding_period,
          max_clock_drift := max_clock_drift,
          latest_height := latest_height, frozen_height := none,
          proof_specs := proof_specs, upgrade_path := upgrade_path,
          allow_update := allow_update }
  else
    .error .other

/-- Protobuf `Any` envelope, modelled as the decoded payload tagged by its
type url, or a malformed blob; the spec (sections 1 and 4.A) treats codecs as
total conversion functions with a single `Decode` error. -/
inductive AnyMsg where
  | clientStateMsg (cs : ClientStateType)
  | consensusStateMsg (cs : ConsensusStateType)
  | headerMsg (h : TmHeader)
  | malformed
deriving DecidableEq, Repr

/-- Decoding of a Tendermint header out of an `Any` envelope
(`TmHeader::try_from`), failing with the `Decode` kind otherwise. -/
def TmHeader.try_from : AnyMsg → Except ClientError TmHeader
  | .headerMsg h => .ok h
  | _ => .error .decode

/-- Decoding of a Tendermint consensus state out of an `Any` envelope
(`ConsensusStateType::try_from`). -/
def ConsensusStateType.try_from : AnyMsg → Except ClientError ConsensusStateType
  | .consensusStateMsg c => .ok c
  | _ => .error .decode

/-- Decoding of a Tendermint client state out of an `Any` envelope
(`ClientState::try_from`). -/
def ClientStateType.try_from : AnyMsg → Except ClientError ClientStateType
  | .clientStateMsg c => .ok c
  | _ => .error .decode

/-- Client identifiers, kept opaque. -/
abbrev ClientId := String

/-- Update metadata written alongside every consensus state: the host
timestamp and host height at the time of the write (spec section 3). -/
structure UpdateMeta where
  host_timestamp : Timestamp
  host_height : Height
deriving DecidableEq, Repr

/-- First-match lookup in an association list. -/
def lookupKey {κ α : Type} [DecidableEq κ] (k : κ) : List (κ × α) → Option α
  | [] => none
  | p :: rest => if p.1 = k then some p.2 else lookupKey k rest

/-- Removal of every entry of an association list at a given key. -/
def eraseKey {κ α : Type} [DecidableEq κ] (k : κ) : List (κ × α) → List (κ × α)
  | [] => []
  | p :: rest => if p.1 = k then eraseKey k rest else p :: eraseKey k rest

/-- Key-value insertion into an association list, replacing the key. -/
def insertKey {κ α : Type} [DecidableEq κ] (k : κ) (v : α) (l : List (κ × α)) :
    List (κ × α) :=
  (k, v) :: eraseKey k l

/-- Modelled from the spec, sections 4.A and 4.C: the host store behind the
`CommonContext` and `ClientExecutionContext` traits — per-client client-state
singletons, the `(client, height)`-keyed consensus-state archive with its
parallel update metadata, and the host clock readings. -/
structure Store where
  clientStates : List (ClientId × ClientStateType)
  consensusStates : List ((ClientId × Height) × ConsensusStateType)
  updateMeta : List ((ClientId × Height) × UpdateMeta)
  host_timestamp : Timestamp
  host_height : Height
deriving DecidableEq, Repr

/-- Lookup of the consensus state at `ClientConsensusStatePath(cid, h)`
(`CommonContext::consensus_state`). -/
def Store.consensus_state (st : Store) (cid : ClientId) (h : Height) :
    Option ConsensusStateType :=
  lookupKey (cid, h) st.consensusStates

/-- Lookup of the client state at `ClientStatePath(cid)`. -/
def Store.client_state (st : Store) (cid : ClientId) : Option ClientStateType :=
  lookupKey cid st.clientStates

/-- Lookup of the update metadata for `(cid, h)`. -/
def Store.update_meta (st : Store) (cid : ClientId) (h : Height) :
    Option UpdateMeta :=
  lookupKey (cid, h) st.updateMeta

/-- Write of a consensus state (`store_consensus_state`). -/
def Store.store_consensus_state (st : Store) (cid : ClientId) (h : Height)
    (c : ConsensusStateType) : Store :=
  { st with consensusStates := insertKey (cid, h) c st.consensusStates }

/-- Deletion of a consensus state (`delete_consensus_state`). -/
def Store.delete_consensus_state (st : Store) (cid : ClientId) (h : Height) :
    Store :=
  { st with consensusStates := eraseKey (cid, h) st.consensusStates }

/-- Write of the client state (`store_client_state`). -/
def Store.store_client_state (st : Store) (cid : ClientId)
    (c : ClientStateType) : Store :=
  { st with clientStates := insertKey cid c st.clientStates }

/-- Write of update metadata (`store_update_meta`). -/
def Store.store_update_meta (st : Store) (cid : ClientId) (h : Height)
    (ts : Timestamp) (hh : Height) : Store :=
  { st with updateMeta :=
      insertKey (cid, h) (UpdateMeta.mk ts hh) st.updateMeta }

/-- Deletion of update metadata (`delete_update_meta`). -/
def Store.delete_update_meta (st : Store) (cid : ClientId) (h : Height) :
    Store :=
  { st with updateMeta := eraseKey (cid, h) st.updateMeta }

/-- Heights of the entries of the consensus-state archive that belong to a
client, in store order. -/
def heightsOfList (cid : ClientId) :
    List ((ClientId × Height) × ConsensusStateType) → List Height
  | [] => []
  | p :: rest =>
    if p.1.1 = cid then p.1.2 :: heightsOfList cid rest
    else heightsOfList cid rest

/-- Enumeration of all heights at which a consensus state is stored for the
client (`CommonContext::consensus_state_heights`); unordered, the engine
sorts. -/
def Store.consensus_state_heights (st : Store) (cid : ClientId) : List Height :=
  heightsOfList cid st.consensusStates

/-- Body of the per-height sweep of `prune_oldest_consensus_state`
(execution.rs lines 310 to 345): for each height in the given order, load the
state, convert the host timestamp to a Tendermint time, stop at the first
state whose expiry exceeds the host timestamp, otherwise delete the state and
its metadata and continue. -/
def pruneLoop (client_state : ClientStateType) (cid : ClientId) :
    List Height → Store → Except ClientError Unit × Store
  | [], st => (.ok (), st)
  | h :: rest, st =>
    match st.consensus_state cid h with
    | none => (.error .notFound, st)
    | some c =>
      match st.host_timestamp.into_tm_time with
      | none => (.error .invalidTimestamp, st)
      | some host_tm =>
        if host_tm < c.timestamp + client_state.trusting_period then
          (.ok (), st)
        else
          pruneLoop client_state cid rest
            ((st.delete_consensus_state cid h).delete_update_meta cid h)

/-- Translation of `prune_oldest_consensus_state` (execution.rs lines 298 to
348): enumerate the stored heights for the client, sort them ascending, then
sweep them in order. -/
def prune_oldest_consensus_state (client_state : ClientStateType)
    (cid : ClientId) (st : Store) : Except ClientError Unit × Store :=
  pruneLoop client_state cid
    (List.insertionSort Height.le (st.consensus_state_heights cid)) st

/-- Translation of `update_state` (execution.rs lines 118 to 177): decode the
header, prune, then either take the duplicate no-op branch when a consensus
state already exists at the header height, or write the new consensus state,
client state and update metadata; in both cases return the singleton list of
the header height. -/
def update_state (client_state : ClientStateType) (cid : ClientId)
    (header : AnyMsg) (st : Store) : Except ClientError (List Height) × Store :=
  match TmHeader.try_from header with
  | .error e => (.error e, st)
  | .ok h =>
    match prune_oldest_consensus_state client_state cid st with
    | (.error e, st1) => (.error e, st1)
    | (.ok _, st1) =>
      match st1.consensus_state cid h.height with
      | some _ => (.ok [h.height], st1)
      | none =>
        let host_ts := st1.host_timestamp
        let host_h := st1.host_height
        let new_consensus_state := ConsensusStateType.from_header h
        match client_state.with_header h with
        | .error e => (.error e, st1)
        | .ok new_client_state =>
          let st2 := st1.store_consensus_state cid h.height new_consensus_state
          let st3 := st2.store_client_state cid new_client_state
          let st4 := st3.store_update_meta cid h.height host_ts host_h
          (.ok [h.height], st4)

/-- Translation of `initialise` (execution.rs lines 73 to 110): read the host
clock, decode the consensus state, then write the client state, the consensus
state at the latest height, and the update metadata. -/
def initialise (client_state : ClientStateType) (cid : ClientId)
    (consensus_state : AnyMsg) (st : Store) : Except ClientError Unit × Store :=
  let host_ts := st.host_timestamp
  let host_h := st.host_height
  match ConsensusStateType.try_from consensus_state with
  | .error e => (.error e, st)
  | .ok tm_consensus_state =>
    let st1 := st.store_client_state cid client_state
    let st2 := st1.store_consensus_state cid client_state.latest_height
      tm_consensus_state
    let st3 := st2.store_update_meta cid client_state.latest_height host_ts
      host_h
    (.ok (), st3)

/-- Translation of `update_on_misbehaviour` (execution.rs lines 185 to 209):
the client message payload is ignored; the client state is frozen at the
sentinel height `Height::min(0)` and written back; nothing else is touched. -/
def update_on_misbehaviour (client_state : ClientStateType) (cid : ClientId)
    (_client_message : AnyMsg) (st : Store) : Except ClientError Unit × Store :=
  (.ok (),
    st.store_client_state cid
      (client_state.with_frozen_height (Height.min 0)))

/-- Translation of `update_on_upgrade` (execution.rs lines 216 to 293): decode
both upgraded envelopes, zero the client-chosen fields of the upgraded client
state, merge chain-chosen parameters from it with client-chosen parameters
from the current client state, build the sentinel consensus state, then write
client state, consensus state and metadata and return the new latest
height. -/
def update_on_upgrade (client_state : ClientStateType) (cid : ClientId)
    (upgraded_client_state upgraded_consensus_state : AnyMsg) (st : Store) :
    Except ClientError Height × Store :=
  match ClientStateType.try_from upgraded_client_state with
  | .error e => (.error e, st)
  | .ok upgraded_tm_client_state =>
    match ConsensusStateType.try_from upgraded_consensus_state with
    | .error e => (.error e, st)
    | .ok upgraded_tm_cons_state =>
      let upz := upgraded_tm_client_state.zero_custom_fields
      match ClientStateType.new upz.chain_id client_state.trust_level
          client_state.trusting_period upz.unbonding_period
          client_state.max_clock_drift upz.latest_height upz.proof_specs
          upz.upgrade_path client_state.allow_update with
      | .error e => (.error e, st)
      | .ok new_client_state =>
        let sentinel_root := "sentinel_root"
        let new_consensus_state : ConsensusStateType :=
          { root := sentinel_root,
            timestamp := upgraded_tm_cons_state.timestamp,
            next_validators_hash :=
              upgraded_tm_cons_state.next_validators_hash }
        let latest_height := new_client_state.latest_height
        let host_ts := st.host_timestamp
        let host_h := st.host_height
        let st1 := st.store_client_state cid new_client_state
        let st2 := st1.store_consensus_state cid latest_height
          new_consensus_state
        let st3 := st2.store_update_meta cid latest_height host_ts host_h
        (.ok latest_height, st3)

/-- Modelled from the spec, section 4.E: the trait entry point runs
`update_state` against the client state currently stored for the client (the
surrounding handler that fetches it is not under `src/`). -/
def update_state_stored (cid : ClientId) (msg : AnyMsg) (st : Store) :
    Except ClientError (List Height) × Store :=
  match st.client_state cid with
  | none => (.error .notFound, st)
  | some c => update_state c cid msg st

/-- A sequence of `update_state` calls, each against the stored client state;
`none` when any call in the sequence fails. -/
def update_state_seq (cid : ClientId) : List AnyMsg → Store → Option Store
  | [], st => some st
  | m :: ms, st =>
    match update_state_stored cid m st with
    | (.ok _, st1) => update_state_seq cid ms st1
    | (.error _, _) => none

/-! Order facts about heights. -/

theorem Height.le_refl (a : Height) : Height.le a a :=
  Or.inr ⟨rfl, Nat.le_refl _⟩

theorem Height.le_trans {a b c : Height} (h1 : Height.le a b)
    (h2 : Height.le b c) : Height.le a c := by
  unfold Height.le at h1 h2 ⊢
  omega

theorem Height.le_total (a b : Height) : Height.le a b ∨ Height.le b a := by
  unfold Height.le
  omega

theorem Height.le_antisymm {a b : Height} (h1 : Height.le a b)
    (h2 : Height.le b a) : a = b := by
  obtain ⟨arn, arh⟩ := a
  obtain ⟨brn, brh⟩ := b
  unfold Height.le at h1 h2
  dsimp only at h1 h2
  simp only [Height.mk.injEq]
  omega

theorem Height.le_of_lt {a b : Height} (h : Height.lt a b) : Height.le a b := by
  unfold Height.lt at h
  unfold Height.le
  omega

theorem Height.ne_of_lt {a b : Height} (h : Height.lt a b) : a ≠ b := by
  intro e
  subst e
  unfold Height.lt at h
  omega

instance : IsTrans Height Height.le :=
  ⟨fun _ _ _ h1 h2 => Height.le_trans h1 h2⟩

instance : IsTotal Height Height.le :=
  ⟨fun a b => Height.le_total a b⟩

instance : IsAntisymm Height Height.le :=
  ⟨fun _ _ h1 h2 => Height.le_antisymm h1 h2⟩

theorem Height.max_left (a b : Height) : Height.le a (Height.max a b) := by
  unfold Height.max
  by_cases h : Height.le a b
  · rw [if_pos h]; exact h
  · rw [if_neg h]; exact Height.le_refl a

theorem Height.max_of_lt {a b : Height} (h : Height.lt b a) :
    Height.max a b = a := by
  unfold Height.max
  rw [if_neg]
  intro hle
  exact Height.ne_of_lt h (Height.le_antisymm (Height.le_of_lt h) hle)

/-! Lemmas about association lists. -/

theorem lookupKey_insertKey_self {κ α : Type} [DecidableEq κ] (k : κ) (v : α)
    (l : List (κ × α)) : lookupKey k (insertKey k v l) = some v := by
  simp [insertKey, lookupKey]

theorem lookupKey_eraseKey_self {κ α : Type} [DecidableEq κ] (k : κ)
    (l : List (κ × α)) : lookupKey k (eraseKey k l) = none := by
  induction l with
  | nil => rfl
  | cons p rest ih =>
    by_cases hp : p.1 = k
    · simp [eraseKey, hp, ih]
    · simp [eraseKey, lookupKey, hp, ih]

theorem lookupKey_eraseKey_ne {κ α : Type} [DecidableEq κ] {k k' : κ}
    (l : List (κ × α)) (hne : k' ≠ k) :
    lookupKey k (eraseKey k' l) = lookupKey k l := by
  induction l with
  | nil => rfl
  | cons p rest ih =>
    have hne2 : k ≠ k' := fun e => hne e.symm
    by_cases hp : p.1 = k'
    · have hk : p.1 ≠ k := by rw [hp]; exact hne
      simp [eraseKey, lookupKey, hp, hk, hne, hne2, ih]
    · by_cases hk : p.1 = k
      · simp [eraseKey, lookupKey, hp, hk, hne, hne2]
      · simp [eraseKey, lookupKey, hp, hk, hne, hne2, ih]

theorem lookupKey_insertKey_ne {κ α : Type} [DecidableEq κ] {k k' : κ} (v : α)
    (l : List (κ × α)) (hne : k' ≠ k) :
    lookupKey k (insertKey k' v l) = lookupKey k l := by
  simp [insertKey, lookupKey, hne, lookupKey_eraseKey_ne l hne]

theorem eraseKey_of_lookup_none {κ α : Type} [DecidableEq κ] {k : κ}
    {l : List (κ × α)} (h : lookupKey k l = none) : eraseKey k l = l := by
  induction l with
  | nil => rfl
  | cons p rest ih =>
    by_cases hp : p.1 = k
    · simp [lookupKey, hp] at h
    · simp only [lookupKey, if_neg hp] at h
      simp [eraseKey, hp, ih h]

theorem eraseKey_idem {κ α : Type} [DecidableEq κ] (k : κ)
    (l : List (κ × α)) : eraseKey k (eraseKey k l) = eraseKey k l :=
  eraseKey_of_lookup_none (lookupKey_eraseKey_self k l)

theorem eraseKey_insertKey_self {κ α : Type} [DecidableEq κ] (k : κ) (v : α)
    (l : List (κ × α)) : eraseKey k (insertKey k v l) = eraseKey k l := by
  simp [insertKey, eraseKey, eraseKey_idem]

theorem insertKey_idem {κ α : Type} [DecidableEq κ] (k : κ) (v : α)
    (l : List (κ × α)) :
    insertKey k v (insertKey k v l) = insertKey k v l := by
  simp [insertKey, eraseKey, eraseKey_idem]

/-! Relating stored heights and lookups. -/

theorem mem_heights_iff_lookup {cid : ClientId} {h : Height}
    {l : List ((ClientId × Height) × ConsensusStateType)} :
    h ∈ heightsOfList cid l ↔ ∃ c, lookupKey (cid, h) l = some c := by
  induction l with
  | nil => simp [heightsOfList, lookupKey]
  | cons p rest ih =>
    obtain ⟨⟨pc, ph⟩, pv⟩ := p
    by_cases hc : pc = cid
    · subst hc
      by_cases hh : ph = h
      · subst hh
        simp [heightsOfList, lookupKey]
      · have hne : h ≠ ph := fun e => hh e.symm
        have hkey : ((pc, ph) : ClientId × Height) ≠ (pc, h) := by
          simp [Prod.ext_iff, hh]
        simp [heightsOfList, lookupKey, hne, hkey, ih]
    · have hkey : ((pc, ph) : ClientId × Height) ≠ (cid, h) := by
        simp [Prod.ext_iff, hc]
      simp [heightsOfList, hc, lookupKey, hkey, ih]

theorem lookup_some_of_mem_heights {st : Store} {cid : ClientId} {h : Height}
    (hm : h ∈ st.consensus_state_heights cid) :
    ∃ c, st.consensus_state cid h = some c :=
  mem_heights_iff_lookup.mp hm

theorem mem_heights_of_lookup_some {st : Store} {cid : ClientId} {h : Height}
    {c : ConsensusStateType} (hl : st.consensus_state cid h = some c) :
    h ∈ st.consensus_state_heights cid :=
  mem_heights_iff_lookup.mpr ⟨c, hl⟩

/-! Frame facts about the pruning loop: it never touches the client states
nor the host clock. -/

theorem pruneLoop_frame (C : ClientStateType) (cid : ClientId)
    (l : List Height) : ∀ st : Store,
    (pruneLoop C cid l st).2.clientStates = st.clientStates ∧
      (pruneLoop C cid l st).2.host_timestamp = st.host_timestamp ∧
      (pruneLoop C cid l st).2.host_height = st.host_height := by
  induction l with
  | nil => intro st; exact ⟨rfl, rfl, rfl⟩
  | cons h rest ih =>
    intro st
    cases hl : st.consensus_state cid h with
    | none => simp [pruneLoop, hl]
    | some c =>
      cases ht : st.host_timestamp.into_tm_time with
      | none => simp [pruneLoop, hl, ht]
      | some T =>
        by_cases hf : T < c.timestamp + C.trusting_period
        · simp [pruneLoop, hl, ht, hf]
        · have hrec :=
            ih ((st.delete_consensus_state cid h).delete_update_meta cid h)
          simp only [pruneLoop, hl, ht, if_neg hf]
          simpa [Store.delete_consensus_state, Store.delete_update_meta]
            using hrec

theorem prune_frame (C : ClientStateType) (cid : ClientId) (st : Store) :
    (prune_oldest_consensus_state C cid st).2.clientStates = st.clientStates ∧
      (prune_oldest_consensus_state C cid st).2.host_timestamp =
        st.host_timestamp ∧
      (prune_oldest_consensus_state C cid st).2.host_height = st.host_height :=
  pruneLoop_frame C cid _ st

/-! Behaviour of lookups across the paired deletion performed by the pruning
loop. -/

theorem consensus_state_after_delete (st : Store) (cid : ClientId)
    (h k : Height) :
    ((st.delete_consensus_state cid h).delete_update_meta cid h).consensus_state
        cid k =
      if k = h then none else st.consensus_state cid k := by
  by_cases e : k = h
  · subst e
    simp [Store.delete_consensus_state, Store.delete_update_meta,
      Store.consensus_state, lookupKey_eraseKey_self]
  · have hkey : ((cid, h) : ClientId × Height) ≠ (cid, k) := by
      simp [Prod.ext_iff]
      intro e2
      exact absurd e2.symm e
    simp [Store.delete_consensus_state, Store.delete_update_meta,
      Store.consensus_state, e, lookupKey_eraseKey_ne _ hkey]

theorem mem_heights_delete {st : Store} {cid : ClientId} {h k : Height}
    (hm : k ∈ ((st.delete_consensus_state cid h).delete_update_meta
      cid h).consensus_state_heights cid) :
    k ≠ h ∧ k ∈ st.consensus_state_heights cid := by
  obtain ⟨c, hc⟩ := lookup_some_of_mem_heights hm
  rw [consensus_state_after_delete] at hc
  by_cases e : k = h
  · rw [if_pos e] at hc
    exact absurd hc (by simp)
  · rw [if_neg e] at hc
    exact ⟨e, mem_heights_of_lookup_some hc⟩

/-- Invariant established by pruning: any state stored at a height that is
minimal among the stored heights of the client is not yet expired relative to
the Tendermint host time `T`. -/
def MinFresh (C : ClientStateType) (cid : ClientId) (T : Nat) (st : Store) :
    Prop :=
  ∀ k c, k ∈ st.consensus_state_heights cid →
    st.consensus_state cid k = some c →
    (∀ k2, k2 ∈ st.consensus_state_heights cid → Height.le k k2) →
    T < c.timestamp + C.trusting_period

theorem pruneLoop_minFresh (C : ClientStateType) (cid : ClientId) (T : Nat)
    (l : List Height) : ∀ (st stp : Store), List.Sorted Height.le l →
    (∀ k, k ∈ st.consensus_state_heights cid → k ∈ l) →
    st.host_timestamp.into_tm_time = some T →
    pruneLoop C cid l st = (.ok (), stp) →
    MinFresh C cid T stp := by
  induction l with
  | nil =>
    intro st stp _ hsub _ hp
    simp only [pruneLoop, Prod.mk.injEq] at hp
    rw [← hp.2]
    intro k c hk _ _
    exact absurd (hsub k hk) (List.not_mem_nil k)
  | cons h rest ih =>
    intro st stp hsort hsub hT hp
    cases hl : st.consensus_state cid h with
    | none => simp [pruneLoop, hl] at hp
    | some c =>
      by_cases hf : T < c.timestamp + C.trusting_period
      · simp only [pruneLoop, hl, hT, if_pos hf,
          Prod.mk.injEq] at hp
        rw [← hp.2]
        intro k ck hkmem hklook hmin
        have hhm : h ∈ st.consensus_state_heights cid :=
          mem_heights_of_lookup_some hl
        have hkh : Height.le k h := hmin h hhm
        have hhk : Height.le h k := by
          rcases List.mem_cons.mp (hsub k hkmem) with e | hmem
          · rw [e]; exact Height.le_refl h
          · exact (List.sorted_cons.mp hsort).1 k hmem
        have e : k = h := Height.le_antisymm hkh hhk
        subst e
        rw [hl] at hklook
        cases hklook
        exact hf
      · simp only [pruneLoop, hl, hT,
          if_neg hf] at hp
        refine ih ((st.delete_consensus_state cid h).delete_update_meta cid h)
          stp (List.sorted_cons.mp hsort).2 ?_ hT hp
        intro k hk
        obtain ⟨hne, hmem⟩ := mem_heights_delete hk
        rcases List.mem_cons.mp (hsub k hmem) with e | hm2
        · exact absurd e hne
        · exact hm2

theorem prune_minFresh {C : ClientStateType} {cid : ClientId} {T : Nat}
    {st stp : Store} (hT : st.host_timestamp.into_tm_time = some T)
    (hp : prune_oldest_consensus_state C cid st = (.ok (), stp)) :
    MinFresh C cid T stp := by
  refine pruneLoop_minFresh C cid T _ st stp
    (List.sorted_insertionSort Height.le _) ?_ hT hp
  intro k hk
  exact (List.perm_insertionSort Height.le
    (st.consensus_state_heights cid)).mem_iff.mpr hk

/-- On a store whose minimal stored height is unexpired, the pruning pass is
a successful no-op. -/
theorem prune_no_op_of_minFresh (C : ClientStateType) (cid : ClientId)
    (T : Nat) (st : Store) (hT : st.host_timestamp.into_tm_time = some T)
    (hmf : MinFresh C cid T st) :
    prune_oldest_consensus_state C cid st = (.ok (), st) := by
  unfold prune_oldest_consensus_state
  cases hs : List.insertionSort Height.le (st.consensus_state_heights cid) with
  | nil => simp [pruneLoop]
  | cons k0 s0 =>
    have hk0mem : k0 ∈ st.consensus_state_heights cid := by
      have hm : k0 ∈ List.insertionSort Height.le
          (st.consensus_state_heights cid) := by
        rw [hs]; exact List.mem_cons_self _ _
      exact (List.perm_insertionSort Height.le _).mem_iff.mp hm
    obtain ⟨c0, hc0⟩ := lookup_some_of_mem_heights hk0mem
    have hsorted : List.Sorted Height.le (k0 :: s0) := by
      rw [← hs]; exact List.sorted_insertionSort Height.le _
    have hmin : ∀ k2, k2 ∈ st.consensus_state_heights cid →
        Height.le k0 k2 := by
      intro k2 hk2
      have hm : k2 ∈ k0 :: s0 := by
        rw [← hs]
        exact (List.perm_insertionSort Height.le _).mem_iff.mpr hk2
      rcases List.mem_cons.mp hm with e | hmem
      · rw [e]; exact Height.le_refl k0
      · exact (List.sorted_cons.mp hsorted).1 k2 hmem
    have hfresh : T < c0.timestamp + C.trusting_period :=
      hmf k0 c0 hk0mem hc0 hmin
    simp [pruneLoop, hc0, hT, hfresh]

/-- Under monotone stored timestamps along the sorted heights, the pruning
loop leaves only unexpired states. -/
theorem pruneLoop_post_monotone (C : ClientStateType) (cid : ClientId)
    (T : Nat) (l : List Height) : ∀ (st stp : Store),
    List.Sorted Height.le l →
    (∀ k, k ∈ st.consensus_state_heights cid → k ∈ l) →
    (∀ k1 k2 c1 c2, k1 ∈ l → k2 ∈ l → Height.le k1 k2 →
      st.consensus_state cid k1 = some c1 →
      st.consensus_state cid k2 = some c2 → c1.timestamp ≤ c2.timestamp) →
    st.host_timestamp.into_tm_time = some T →
    pruneLoop C cid l st = (.ok (), stp) →
    ∀ k c, stp.consensus_state cid k = some c →
      T < c.timestamp + C.trusting_period := by
  induction l with
  | nil =>
    intro st stp _ hsub _ _ hp
    simp only [pruneLoop, Prod.mk.injEq] at hp
    rw [← hp.2]
    intro k c hk
    exact absurd (hsub k (mem_heights_of_lookup_some hk))
      (List.not_mem_nil k)
  | cons h rest ih =>
    intro st stp hsort hsub hmono hT hp
    cases hl : st.consensus_state cid h with
    | none => simp [pruneLoop, hl] at hp
    | some c0 =>
      by_cases hf : T < c0.timestamp + C.trusting_period
      · simp only [pruneLoop, hl, hT, if_pos hf,
          Prod.mk.injEq] at hp
        rw [← hp.2]
        intro k c hklook
        have hkmem : k ∈ st.consensus_state_heights cid :=
          mem_heights_of_lookup_some hklook
        rcases List.mem_cons.mp (hsub k hkmem) with e | hmem
        · subst e
          rw [hl] at hklook
          cases hklook
          exact hf
        · have hle : Height.le h k := (List.sorted_cons.mp hsort).1 k hmem
          have hts : c0.timestamp ≤ c.timestamp :=
            hmono h k c0 c (List.mem_cons_self _ _)
              (List.mem_cons_of_mem _ hmem) hle hl hklook
          omega
      · simp only [pruneLoop, hl, hT,
          if_neg hf] at hp
        refine ih ((st.delete_consensus_state cid h).delete_update_meta cid h)
          stp (List.sorted_cons.mp hsort).2 ?_ ?_ hT hp
        · intro k hk
          obtain ⟨hne, hmem⟩ := mem_heights_delete hk
          rcases List.mem_cons.mp (hsub k hmem) with e | hm2
          · exact absurd e hne
          · exact hm2
        · intro k1 k2 c1 c2 hm1 hm2 hle hl1 hl2
          rw [consensus_state_after_delete] at hl1 hl2
          by_cases e1 : k1 = h
          · rw [if_pos e1] at hl1
            exact absurd hl1 (by simp)
          · by_cases e2 : k2 = h
            · rw [if_pos e2] at hl2
              exact absurd hl2 (by simp)
            · rw [if_neg e1] at hl1
              rw [if_neg e2] at hl2
              exact hmono k1 k2 c1 c2 (List.mem_cons_of_mem _ hm1)
                (List.mem_cons_of_mem _ hm2) hle hl1 hl2

/-! Claim theorems. -/

/-- C10: payload independence of `update_on_misbehaviour` — two calls that
agree on client state, context and client id but differ arbitrarily in the
client message (including an undecodable envelope) produce identical results
and identical store writes, and the call never fails, in particular never with
a `Decode` error, because the payload is never decoded. -/
theorem update_on_misbehaviour_payload_independent (C : ClientStateType)
    (cid : ClientId) (m1 m2 : AnyMsg) (st : Store) :
    update_on_misbehaviour C cid m1 st = update_on_misbehaviour C cid m2 st ∧
      (update_on_misbehaviour C cid m1 st).1 = .ok () :=
  ⟨rfl, rfl⟩

/-- C6: misbehaviour freeze — every call to `update_on_misbehaviour`
succeeds, stores a client state whose frozen height is the reserved sentinel
(revision number 0, revision height 1), and writes no consensus state and no
update metadata: the archive is unchanged. -/
theorem update_on_misbehaviour_freezes (C : ClientStateType) (cid : ClientId)
    (msg : AnyMsg) (st : Store) :
    (update_on_misbehaviour C cid msg st).1 = .ok () ∧
      (∃ C2, ((update_on_misbehaviour C cid msg st).2).client_state cid =
          some C2 ∧
        C2.frozen_height =
          some { revision_number := 0, revision_height := 1 }) ∧
      ((update_on_misbehaviour C cid msg st).2).consensusStates =
        st.consensusStates ∧
      ((update_on_misbehaviour C cid msg st).2).updateMeta = st.updateMeta := by
  refine ⟨rfl, ⟨C.with_frozen_height (Height.min 0), ?_, rfl⟩, rfl, rfl⟩
  simp [update_on_misbehaviour, Store.store_client_state, Store.client_state,
    lookupKey, insertKey]

/-- C4: upgrade parameter merge — a successful `update_on_upgrade` stores a
client state taking trust level, trusting period, max clock drift and the
allow-update flags from the current client state, taking chain id, unbonding
period, latest height, proof specs and upgrade path from the zeroed upgraded
client state input, with the frozen height reset to `none`. -/
theorem update_on_upgrade_parameter_merge (C : ClientStateType)
    (cid : ClientId) (upCS upCons : AnyMsg) (st : Store) (lh : Height)
    (st2 : Store) (h : update_on_upgrade C cid upCS upCons st = (.ok lh, st2)) :
    ∃ up newC, ClientStateType.try_from upCS = .ok up ∧
      st2.client_state cid = some newC ∧
      newC.trust_level = C.trust_level ∧
      newC.trusting_period = C.trusting_period ∧
      newC.max_clock_drift = C.max_clock_drift ∧
      newC.allow_update = C.allow_update ∧
      newC.chain_id = up.zero_custom_fields.chain_id ∧
      newC.unbonding_period = up.zero_custom_fields.unbonding_period ∧
      newC.latest_height = up.zero_custom_fields.latest_height ∧
      newC.proof_specs = up.zero_custom_fields.proof_specs ∧
      newC.upgrade_path = up.zero_custom_fields.upgrade_path ∧
      newC.frozen_height = none := by
  cases upCS with
  | clientStateMsg up =>
    cases upCons with
    | consensusStateMsg upc =>
      by_cases hcond : C.trusting_period <
            up.zero_custom_fields.unbonding_period ∧
          0 < C.trust_level.denominator ∧
          C.trust_level.denominator ≤ 3 * C.trust_level.numerator ∧
          C.trust_level.numerator ≤ C.trust_level.denominator
      · simp only [update_on_upgrade, ClientStateType.try_from,
          ConsensusStateType.try_from, ClientStateType.new, if_pos hcond,
          Prod.mk.injEq, Except.ok.injEq] at h
        obtain ⟨hlh, hst⟩ := h
        refine ⟨up,
          { chain_id := up.zero_custom_fields.chain_id,
            trust_level := C.trust_level,
            trusting_period := C.trusting_period,
            unbonding_period := up.zero_custom_fields.unbonding_period,
            max_clock_drift := C.max_clock_drift,
            latest_height := up.zero_custom_fields.latest_height,
            frozen_height := none,
            proof_specs := up.zero_custom_fields.proof_specs,
            upgrade_path := up.zero_custom_fields.upgrade_path,
            allow_update := C.allow_update },
          rfl, ?_, rfl, rfl, rfl, rfl, rfl, rfl, rfl, rfl, rfl, rfl⟩
        rw [← hst]
        simp [Store.store_update_meta, Store.store_consensus_state,
          Store.store_client_state, Store.client_state, lookupKey, insertKey]
      · simp [update_on_upgrade, ClientStateType.try_from,
          ConsensusStateType.try_from, ClientStateType.new, hcond] at h
    | clientStateMsg c =>
      simp [update_on_upgrade, ConsensusStateType.try_from,
        ClientStateType.try_from] at h
    | headerMsg hd =>
      simp [update_on_upgrade, ConsensusStateType.try_from,
        ClientStateType.try_from] at h
    | malformed =>
      simp [update_on_upgrade, ConsensusStateType.try_from,
        ClientStateType.try_from] at h
  | consensusStateMsg c => simp [update_on_upgrade, ClientStateType.try_from] at h
  | headerMsg hd => simp [update_on_upgrade, ClientStateType.try_from] at h
  | malformed => simp [update_on_upgrade, ClientStateType.try_from] at h

/-- Concrete current client state for the upgrade scenario. -/
def upgOldClient : ClientStateType :=
  ClientStateType.mk "chain-a" (TrustThreshold.mk 1 3) 100 200 5
    (Height.mk 0 10) none ["p"] ["u"] (AllowUpdate.mk false false)

/-- Concrete upgraded client state input for the upgrade scenario. -/
def upgNewClient : ClientStateType :=
  ClientStateType.mk "chain-b" (TrustThreshold.mk 2 3) 50 300 7
    (Height.mk 1 1) none ["p2"] ["u2"] (AllowUpdate.mk true true)

/-- Concrete upgraded consensus state input for the upgrade scenario. -/
def upgCons : ConsensusStateType := ConsensusStateType.mk "r" 900 "nv"

/-- Concrete host store for the upgrade scenario. -/
def upgStore : Store :=
  Store.mk [] [] [] (Timestamp.mk (some 1000)) (Height.mk 9 9)

/-- C4 witness: a concrete successful upgrade exercising the merge theorem. -/
theorem update_on_upgrade_parameter_merge_witness :
    ∃ up newC,
      ClientStateType.try_from (AnyMsg.clientStateMsg upgNewClient) =
        .ok up ∧
      ((update_on_upgrade upgOldClient "client-7"
          (AnyMsg.clientStateMsg upgNewClient)
          (AnyMsg.consensusStateMsg upgCons) upgStore).2).client_state
          "client-7" = some newC ∧
      newC.trust_level = upgOldClient.trust_level ∧
      newC.trusting_period = upgOldClient.trusting_period ∧
      newC.max_clock_drift = upgOldClient.max_clock_drift ∧
      newC.allow_update = upgOldClient.allow_update ∧
      newC.chain_id = up.zero_custom_fields.chain_id ∧
      newC.unbonding_period = up.zero_custom_fields.unbonding_period ∧
      newC.latest_height = up.zero_custom_fields.latest_height ∧
      newC.proof_specs = up.zero_custom_fields.proof_specs ∧
      newC.upgrade_path = up.zero_custom_fields.upgrade_path ∧
      newC.frozen_height = none :=
  update_on_upgrade_parameter_merge upgOldClient "client-7"
    (AnyMsg.clientStateMsg upgNewClient) (AnyMsg.consensusStateMsg upgCons)
    upgStore (Height.mk 1 1)
    ((update_on_upgrade upgOldClient "client-7"
      (AnyMsg.clientStateMsg upgNewClient) (AnyMsg.consensusStateMsg upgCons)
      upgStore).2) (by decide)

/-- C5: sentinel consensus state on upgrade — a successful
`update_on_upgrade` returns the latest height of the zeroed upgraded client
state and stores at that height a consensus state whose root is the literal
bytes of `sentinel_root` and whose timestamp and next validators hash are
copied from the upgraded consensus state input. -/
theorem update_on_upgrade_sentinel (C : ClientStateType) (cid : ClientId)
    (upCS upCons : AnyMsg) (st : Store) (lh : Height) (st2 : Store)
    (h : update_on_upgrade C cid upCS upCons st = (.ok lh, st2)) :
    ∃ up upc, ClientStateType.try_from upCS = .ok up ∧
      ConsensusStateType.try_from upCons = .ok upc ∧
      lh = up.zero_custom_fields.latest_height ∧
      st2.consensus_state cid lh =
        some (ConsensusStateType.mk "sentinel_root" upc.timestamp
          upc.next_validators_hash) := by
  cases upCS with
  | clientStateMsg up =>
    cases upCons with
    | consensusStateMsg upc =>
      by_cases hcond : C.trusting_period <
            up.zero_custom_fields.unbonding_period ∧
          0 < C.trust_level.denominator ∧
          C.trust_level.denominator ≤ 3 * C.trust_level.numerator ∧
          C.trust_level.numerator ≤ C.trust_level.denominator
      · simp only [update_on_upgrade, ClientStateType.try_from,
          ConsensusStateType.try_from, ClientStateType.new, if_pos hcond,
          Prod.mk.injEq, Except.ok.injEq] at h
        obtain ⟨hlh, hst⟩ := h
        refine ⟨up, upc, rfl, rfl, hlh.symm, ?_⟩
        rw [← hst, ← hlh]
        simp [Store.store_update_meta, Store.store_consensus_state,
          Store.store_client_state, Store.consensus_state, lookupKey,
          insertKey]
      · simp [update_on_upgrade, ClientStateType.try_from,
          ConsensusStateType.try_from, ClientStateType.new, hcond] at h
    | clientStateMsg c =>
      simp [update_on_upgrade, ConsensusStateType.try_from,
        ClientStateType.try_from] at h
    | headerMsg hd =>
      simp [update_on_upgrade, ConsensusStateType.try_from,
        ClientStateType.try_from] at h
    | malformed =>
      simp [update_on_upgrade, ConsensusStateType.try_from,
        ClientStateType.try_from] at h
  | consensusStateMsg c =>
    simp [update_on_upgrade, ClientStateType.try_from] at h
  | headerMsg hd => simp [update_on_upgrade, ClientStateType.try_from] at h
  | malformed => simp [update_on_upgrade, ClientStateType.try_from] at h

/-- C5 witness: the concrete successful upgrade exercising the sentinel
theorem. -/
theorem update_on_upgrade_sentinel_witness :
    ∃ up upc,
      ClientStateType.try_from (AnyMsg.clientStateMsg upgNewClient) =
        .ok up ∧
      ConsensusStateType.try_from (AnyMsg.consensusStateMsg upgCons) =
        .ok upc ∧
      Height.mk 1 1 = up.zero_custom_fields.latest_height ∧
      ((update_on_upgrade upgOldClient "client-7"
          (AnyMsg.clientStateMsg upgNewClient)
          (AnyMsg.consensusStateMsg upgCons) upgStore).2).consensus_state
          "client-7" (Height.mk 1 1) =
        some (ConsensusStateType.mk "sentinel_root" upc.timestamp
          upc.next_validators_hash) :=
  update_on_upgrade_sentinel upgOldClient "client-7"
    (AnyMsg.clientStateMsg upgNewClient) (AnyMsg.consensusStateMsg upgCons)
    upgStore (Height.mk 1 1)
    ((update_on_upgrade upgOldClient "client-7"
      (AnyMsg.clientStateMsg upgNewClient) (AnyMsg.consensusStateMsg upgCons)
      upgStore).2) (by decide)

/-- C8: initialise postcondition — a malformed consensus-state envelope makes
the call fail with the `Decode` kind and write nothing, and a well-formed one
makes the call succeed, writing the client state at `ClientStatePath`, the
decoded consensus state at `ClientConsensusStatePath(cid, latest_height)`,
and update metadata equal to the host timestamp and host height read from the
context. -/
theorem initialise_postcondition (C : ClientStateType) (cid : ClientId)
    (msg : AnyMsg) (st : Store) :
    initialise C cid AnyMsg.malformed st = (.error .decode, st) ∧
    (∀ e, ConsensusStateType.try_from msg = .error e →
      initialise C cid msg st = (.error e, st)) ∧
    (∀ v, ConsensusStateType.try_from msg = .ok v →
      (initialise C cid msg st).1 = .ok () ∧
      ((initialise C cid msg st).2).client_state cid = some C ∧
      ((initialise C cid msg st).2).consensus_state cid C.latest_height =
        some v ∧
      ((initialise C cid msg st).2).update_meta cid C.latest_height =
        some (UpdateMeta.mk st.host_timestamp st.host_height)) := by
  refine ⟨rfl, ?_, ?_⟩
  · intro e he
    cases msg with
    | consensusStateMsg c => simp [ConsensusStateType.try_from] at he
    | clientStateMsg c =>
      simp only [ConsensusStateType.try_from, Except.error.injEq] at he
      rw [← he]
      rfl
    | headerMsg hd =>
      simp only [ConsensusStateType.try_from, Except.error.injEq] at he
      rw [← he]
      rfl
    | malformed =>
      simp only [ConsensusStateType.try_from, Except.error.injEq] at he
      rw [← he]
      rfl
  · intro v hv
    cases msg with
    | consensusStateMsg c =>
      simp only [ConsensusStateType.try_from, Except.ok.injEq] at hv
      subst hv
      refine ⟨rfl, ?_, ?_, ?_⟩
      · simp [initialise, ConsensusStateType.try_from,
          Store.store_update_meta, Store.store_consensus_state,
          Store.store_client_state, Store.client_state, lookupKey, insertKey]
      · simp [initialise, ConsensusStateType.try_from,
          Store.store_update_meta, Store.store_consensus_state,
          Store.store_client_state, Store.consensus_state, lookupKey,
          insertKey]
      · simp [initialise, ConsensusStateType.try_from,
          Store.store_update_meta, Store.store_consensus_state,
          Store.store_client_state, Store.update_meta, lookupKey, insertKey]
    | clientStateMsg c => simp [ConsensusStateType.try_from] at hv
    | headerMsg hd => simp [ConsensusStateType.try_from] at hv
    | malformed => simp [ConsensusStateType.try_from] at hv

/-- C8 witness: the initialise postcondition at a concrete client, consensus
state and store, discharging both inner hypotheses. -/
theorem initialise_postcondition_witness :
    (initialise upgOldClient "client-7"
        (AnyMsg.consensusStateMsg upgCons) upgStore).1 = .ok () ∧
      ((initialise upgOldClient "client-7"
        (AnyMsg.consensusStateMsg upgCons) upgStore).2).client_state
        "client-7" = some upgOldClient ∧
      ((initialise upgOldClient "client-7"
        (AnyMsg.consensusStateMsg upgCons) upgStore).2).consensus_state
        "client-7" upgOldClient.latest_height = some upgCons ∧
      ((initialise upgOldClient "client-7"
        (AnyMsg.consensusStateMsg upgCons) upgStore).2).update_meta
        "client-7" upgOldClient.latest_height =
        some (UpdateMeta.mk upgStore.host_timestamp upgStore.host_height) :=
  (initialise_postcondition upgOldClient "client-7"
    (AnyMsg.consensusStateMsg upgCons) upgStore).2.2 upgCons rfl

/-- Concrete store for the host-timestamp conversion claim: no consensus
state stored for the client, host timestamp not convertible. -/
def c9Store : Store := Store.mk [] [] [] (Timestamp.mk none) (Height.mk 0 1)

/-- Concrete store with one stored consensus state and an unconvertible host
timestamp. -/
def c9Store2 : Store :=
  Store.mk []
    [(("client-9", Height.mk 0 1), ConsensusStateType.mk "r" 5 "nv")] []
    (Timestamp.mk none) (Height.mk 0 1)

/-- C9 counterexample: with an unconvertible host timestamp but no stored
heights for the client, `prune_oldest_consensus_state` succeeds instead of
failing with `InvalidTimestamp`, because the conversion happens inside the
per-height sweep, not before it. -/
theorem prune_invalid_timestamp_counterexample :
    c9Store.host_timestamp.into_tm_time = none ∧
    c9Store.consensus_state_heights "client-9" = [] ∧
    prune_oldest_consensus_state upgOldClient "client-9" c9Store =
      (.ok (), c9Store) := by
  decide

/-- C9 amended: when the host timestamp is not convertible to a Tendermint
time and at least one consensus state is stored for the client, the pruning
call fails with the `InvalidTimestamp` kind (the conversion runs on the first
iteration of the sweep); with no stored heights the call succeeds. -/
theorem prune_invalid_timestamp (C : ClientStateType) (cid : ClientId)
    (st : Store) (hnone : st.host_timestamp.into_tm_time = none)
    (hne : st.consensus_state_heights cid ≠ []) :
    (prune_oldest_consensus_state C cid st).1 = .error .invalidTimestamp := by
  unfold prune_oldest_consensus_state
  cases hs : List.insertionSort Height.le (st.consensus_state_heights cid) with
  | nil =>
    have hlen : (List.insertionSort Height.le
        (st.consensus_state_heights cid)).length =
        (st.consensus_state_heights cid).length :=
      (List.perm_insertionSort Height.le _).length_eq
    rw [hs] at hlen
    exact absurd (List.eq_nil_of_length_eq_zero hlen.symm) hne
  | cons k0 s0 =>
    have hk0mem : k0 ∈ st.consensus_state_heights cid := by
      have hm : k0 ∈ List.insertionSort Height.le
          (st.consensus_state_heights cid) := by
        rw [hs]
        exact List.mem_cons_self _ _
      exact (List.perm_insertionSort Height.le _).mem_iff.mp hm
    obtain ⟨c0, hc0⟩ := lookup_some_of_mem_heights hk0mem
    simp [pruneLoop, hc0, hnone]

/-- C9 witness: the amended claim at a concrete store holding one consensus
state under an unconvertible host timestamp. -/
theorem prune_invalid_timestamp_witness :
    (prune_oldest_consensus_state upgOldClient "client-9" c9Store2).1 =
      .error .invalidTimestamp :=
  prune_invalid_timestamp upgOldClient "client-9" c9Store2 rfl (by decide)

/-- Concrete client for the pruning postcondition claim. -/
def c2Client : ClientStateType :=
  ClientStateType.mk "chain-c" (TrustThreshold.mk 1 3) 10 20 1 (Height.mk 0 2)
    none [] [] (AllowUpdate.mk false false)

/-- Concrete store with non-monotone timestamps along sorted heights: the
state at the lower height is fresh, the one at the higher height is already
expired. -/
def c2Store : Store :=
  Store.mk []
    [(("client-2", Height.mk 0 1), ConsensusStateType.mk "r1" 95 "nv"),
     (("client-2", Height.mk 0 2), ConsensusStateType.mk "r2" 10 "nv")] []
    (Timestamp.mk (some 100)) (Height.mk 0 9)

/-- C2 counterexample: after a successful prune on a store with non-monotone
block timestamps, an expired consensus state remains stored — the claimed
postcondition fails without a monotonicity assumption, because the sweep
stops at the first non-expired state in sorted height order. -/
theorem prune_postcondition_counterexample :
    prune_oldest_consensus_state c2Client "client-2" c2Store =
      (.ok (), c2Store) ∧
    c2Store.host_timestamp.into_tm_time = some 100 ∧
    ((prune_oldest_consensus_state c2Client "client-2" c2Store).2
      ).consensus_state "client-2" (Height.mk 0 2) =
      some (ConsensusStateType.mk "r2" 10 "nv") ∧
    10 + c2Client.trusting_period ≤ 100 := by
  decide

/-- C2 amended: if the stored block timestamps are monotone non-decreasing
along the height order, then after a successful prune every remaining stored
consensus state of the client satisfies
timestamp + trusting_period > host timestamp. -/
theorem prune_postcondition_monotone (C : ClientStateType) (cid : ClientId)
    (T : Nat) (st stp : Store)
    (hT : st.host_timestamp.into_tm_time = some T)
    (hmono : ∀ k1 k2 c1 c2, Height.le k1 k2 →
      st.consensus_state cid k1 = some c1 →
      st.consensus_state cid k2 = some c2 → c1.timestamp ≤ c2.timestamp)
    (hp : prune_oldest_consensus_state C cid st = (.ok (), stp)) :
    ∀ k c, stp.consensus_state cid k = some c →
      T < c.timestamp + C.trusting_period := by
  refine pruneLoop_post_monotone C cid T _ st stp
    (List.sorted_insertionSort Height.le _) ?_ ?_ hT hp
  · intro k hk
    exact (List.perm_insertionSort Height.le _).mem_iff.mpr hk
  · intro k1 k2 c1 c2 _ _ hle hl1 hl2
    exact hmono k1 k2 c1 c2 hle hl1 hl2

/-- Concrete store with a single fresh consensus state, trivially monotone. -/
def c2wStore : Store :=
  Store.mk []
    [(("client-2w", Height.mk 0 1), ConsensusStateType.mk "rw" 95 "nv")] []
    (Timestamp.mk (some 100)) (Height.mk 0 9)

/-- C2 witness: the amended prune postcondition at a concrete monotone
store, instantiated at the surviving stored state. -/
theorem prune_postcondition_monotone_witness :
    100 < (ConsensusStateType.mk "rw" 95 "nv").timestamp +
      c2Client.trusting_period := by
  refine prune_postcondition_monotone c2Client "client-2w" 100 c2wStore
    ((prune_oldest_consensus_state c2Client "client-2w" c2wStore).2) rfl ?_
    (by decide) (Height.mk 0 1) (ConsensusStateType.mk "rw" 95 "nv")
    (by decide)
  intro k1 k2 c1 c2 hle h1 h2
  simp only [Store.consensus_state, c2wStore, lookupKey] at h1 h2
  split at h1
  · split at h2
    · cases h1
      cases h2
      exact Nat.le_refl _
    · exact absurd h2 (by simp)
  · exact absurd h1 (by simp)

/-- Concrete client for the duplicate-submission claim. -/
def c3Client : ClientStateType :=
  ClientStateType.mk "chain-3" (TrustThreshold.mk 1 3) 10 20 1 (Height.mk 0 9)
    none [] [] (AllowUpdate.mk false false)

/-- Concrete header for the duplicate-submission claim. -/
def c3Header : TmHeader := TmHeader.mk (Height.mk 0 5) 10 "app3" "nv3"

/-- Concrete store holding an expired consensus state and its metadata at the
header height. -/
def c3Store : Store :=
  Store.mk [("client-3", c3Client)]
    [(("client-3", Height.mk 0 5), ConsensusStateType.mk "r3" 10 "nv3")]
    [(("client-3", Height.mk 0 5),
      UpdateMeta.mk (Timestamp.mk (some 1)) (Height.mk 0 1))]
    (Timestamp.mk (some 100)) (Height.mk 0 50)

/-- C3 counterexample: a consensus state exists at the header height when the
call starts, the call succeeds returning the singleton header height, and yet
the update metadata at that height changes — the initial pruning pass deletes
the expired state, after which the engine re-inserts it and re-stamps the
metadata, so the call is not write-free. -/
theorem update_state_duplicate_frame_counterexample :
    (c3Store.consensus_state "client-3" (Height.mk 0 5)).isSome = true ∧
    (update_state c3Client "client-3" (AnyMsg.headerMsg c3Header)
      c3Store).1 = .ok [Height.mk 0 5] ∧
    ((update_state c3Client "client-3" (AnyMsg.headerMsg c3Header)
      c3Store).2).update_meta "client-3" (Height.mk 0 5) ≠
      c3Store.update_meta "client-3" (Height.mk 0 5) := by
  decide

/-- C3 amended: when a consensus state still exists at the header height
after the initial pruning pass, `update_state` succeeds with the singleton
header height and performs no writes beyond those of pruning — its result
store is exactly the post-prune store, whose client states (and hence the
stored client state) pruning never touches. -/
theorem update_state_duplicate_no_op (C : ClientStateType) (cid : ClientId)
    (H : TmHeader) (st stp : Store) (c : ConsensusStateType)
    (hp : prune_oldest_consensus_state C cid st = (.ok (), stp))
    (hdup : stp.consensus_state cid H.height = some c) :
    update_state C cid (AnyMsg.headerMsg H) st = (.ok [H.height], stp) ∧
      stp.clientStates = st.clientStates := by
  constructor
  · simp only [update_state, TmHeader.try_from, hp, hdup]
  · have hfr := prune_frame C cid st
    rw [hp] at hfr
    exact hfr.1

/-- Concrete store holding a fresh consensus state at the header height. -/
def c3wStore : Store :=
  Store.mk [("client-3w", c3Client)]
    [(("client-3w", Height.mk 0 1), ConsensusStateType.mk "rw" 95 "nv")] []
    (Timestamp.mk (some 100)) (Height.mk 0 50)

/-- Concrete header matching the stored fresh consensus state. -/
def c3wHeader : TmHeader := TmHeader.mk (Height.mk 0 1) 95 "rw" "nv"

/-- C3 witness: the amended duplicate no-op at a concrete store whose stored
state at the header height survives pruning. -/
theorem update_state_duplicate_no_op_witness :
    update_state c3Client "client-3w" (AnyMsg.headerMsg c3wHeader) c3wStore =
      (.ok [Height.mk 0 1],
        (prune_oldest_consensus_state c3Client "client-3w" c3wStore).2) ∧
      ((prune_oldest_consensus_state c3Client "client-3w"
        c3wStore).2).clientStates = c3wStore.clientStates :=
  update_state_duplicate_no_op c3Client "client-3w" c3wHeader c3wStore
    ((prune_oldest_consensus_state c3Client "client-3w" c3wStore).2)
    (ConsensusStateType.mk "rw" 95 "nv") (by decide) (by decide)

/-- One successful `update_state` call never decreases the latest height of
the stored client state: the duplicate branch leaves the client state
untouched, and the write branch stores `with_header`, which takes the
maximum. -/
theorem update_state_client_step (C : ClientStateType) (cid : ClientId)
    (msg : AnyMsg) (st st2 : Store) (hs : List Height)
    (hC : st.client_state cid = some C)
    (h : update_state C cid msg st = (.ok hs, st2)) :
    ∃ C2, st2.client_state cid = some C2 ∧
      Height.le C.latest_height C2.latest_height := by
  cases msg with
  | headerMsg H =>
    rcases hpp : prune_oldest_consensus_state C cid st with ⟨e, stp⟩
    cases e with
    | error err => simp [update_state, TmHeader.try_from, hpp] at h
    | ok u =>
      have hfr := prune_frame C cid st
      rw [hpp] at hfr
      cases hdup : stp.consensus_state cid H.height with
      | some c =>
        simp only [update_state, TmHeader.try_from, hpp, hdup,
          Prod.mk.injEq, Except.ok.injEq] at h
        obtain ⟨h1, h2⟩ := h
        refine ⟨C, ?_, Height.le_refl _⟩
        rw [← h2]
        unfold Store.client_state
        rw [hfr.1]
        exact hC
      | none =>
        simp only [update_state, TmHeader.try_from, hpp, hdup,
          ClientStateType.with_header, Prod.mk.injEq, Except.ok.injEq] at h
        obtain ⟨h1, h2⟩ := h
        refine ⟨{ C with latest_height := Height.max C.latest_height H.height },
          ?_, Height.max_left _ _⟩
        rw [← h2]
        simp [Store.store_update_meta, Store.store_client_state,
          Store.store_consensus_state, Store.client_state, lookupKey,
          insertKey]
  | clientStateMsg c => simp [update_state, TmHeader.try_from] at h
  | consensusStateMsg c => simp [update_state, TmHeader.try_from] at h
  | malformed => simp [update_state, TmHeader.try_from] at h

/-- Along any sequence of successful `update_state` calls, each against the
stored client state, the latest height of the stored client state is
non-decreasing. -/
theorem update_state_seq_monotone (cid : ClientId) (msgs : List AnyMsg) :
    ∀ (st st3 : Store) (C C3 : ClientStateType),
      st.client_state cid = some C →
      update_state_seq cid msgs st = some st3 →
      st3.client_state cid = some C3 →
      Height.le C.latest_height C3.latest_height := by
  induction msgs with
  | nil =>
    intro st st3 C C3 hC hseq hC3
    simp only [update_state_seq, Option.some.injEq] at hseq
    rw [← hseq] at hC3
    rw [hC] at hC3
    cases hC3
    exact Height.le_refl _
  | cons m ms ih =>
    intro st st3 C C3 hC hseq hC3
    rcases hu : update_state C cid m st with ⟨e, st1⟩
    cases e with
    | error err =>
      simp only [update_state_seq, update_state_stored, hC, hu] at hseq
      exact Option.noConfusion hseq
    | ok hs1 =>
      simp only [update_state_seq, update_state_stored, hC, hu] at hseq
      obtain ⟨C1, hC1, hle1⟩ :=
        update_state_client_step C cid m st st1 hs1 hC hu
      exact Height.le_trans hle1 (ih st1 st3 C1 C3 hC1 hseq hC3)

/-- C7: latest-height monotonicity and historical fill-in — a successful
`update_state` call against the stored client state leaves a stored client
state with a latest height no smaller; when the header height is strictly
below the current latest height the call still makes a consensus state
available at the header height while the latest height stays unchanged,
because `with_header` takes the maximum; and along any sequence of successful
calls the stored latest height is non-decreasing. -/
theorem update_state_latest_monotone_fill_in (C : ClientStateType)
    (cid : ClientId) (H : TmHeader) (st st2 st3 : Store) (hs : List Height)
    (msgs : List AnyMsg) (C3 : ClientStateType)
    (hC : st.client_state cid = some C)
    (h : update_state C cid (AnyMsg.headerMsg H) st = (.ok hs, st2))
    (hseq : update_state_seq cid msgs st = some st3)
    (hC3 : st3.client_state cid = some C3) :
    (∃ C2, st2.client_state cid = some C2 ∧
      Height.le C.latest_height C2.latest_height ∧
      (Height.lt H.height C.latest_height →
        (∃ c, st2.consensus_state cid H.height = some c) ∧
        C2.latest_height = C.latest_height)) ∧
    Height.le C.latest_height C3.latest_height := by
  refine ⟨?_, update_state_seq_monotone cid msgs st st3 C C3 hC hseq hC3⟩
  rcases hpp : prune_oldest_consensus_state C cid st with ⟨e, stp⟩
  cases e with
  | error err => simp [update_state, TmHeader.try_from, hpp] at h
  | ok u =>
    have hfr := prune_frame C cid st
    rw [hpp] at hfr
    cases hdup : stp.consensus_state cid H.height with
    | some c =>
      simp only [update_state, TmHeader.try_from, hpp, hdup,
        Prod.mk.injEq, Except.ok.injEq] at h
      obtain ⟨h1, h2⟩ := h
      refine ⟨C, ?_, Height.le_refl _, fun _ => ⟨⟨c, ?_⟩, rfl⟩⟩
      · rw [← h2]
        unfold Store.client_state
        rw [hfr.1]
        exact hC
      · rw [← h2]
        exact hdup
    | none =>
      simp only [update_state, TmHeader.try_from, hpp, hdup,
        ClientStateType.with_header, Prod.mk.injEq, Except.ok.injEq] at h
      obtain ⟨h1, h2⟩ := h
      refine ⟨{ C with latest_height := Height.max C.latest_height H.height },
        ?_, Height.max_left _ _, fun hlt => ⟨⟨ConsensusStateType.from_header H, ?_⟩,
          ?_⟩⟩
      · rw [← h2]
        simp [Store.store_update_meta, Store.store_client_state,
          Store.store_consensus_state, Store.client_state, lookupKey,
          insertKey]
      · rw [← h2]
        simp [Store.store_update_meta, Store.store_client_state,
          Store.store_consensus_state, Store.consensus_state, lookupKey,
          insertKey]
      · exact Height.max_of_lt hlt

/-- Concrete client for the monotonicity claim, stored at its client id. -/
def c7Client : ClientStateType :=
  ClientStateType.mk "chain-7" (TrustThreshold.mk 1 3) 10 20 1
    (Height.mk 0 10) none [] [] (AllowUpdate.mk false false)

/-- Concrete store holding the monotonicity client and nothing else. -/
def c7Store : Store :=
  Store.mk [("client-70", c7Client)] [] [] (Timestamp.mk (some 100))
    (Height.mk 0 50)

/-- Concrete header strictly below the stored latest height. -/
def c7Header : TmHeader := TmHeader.mk (Height.mk 0 7) 95 "a7" "n7"

/-- C7 witness: the monotonicity and fill-in theorem at a concrete store, a
concrete historical header, and the empty update sequence. -/
theorem update_state_latest_monotone_fill_in_witness :
    (∃ C2, ((update_state c7Client "client-70" (AnyMsg.headerMsg c7Header)
        c7Store).2).client_state "client-70" = some C2 ∧
      Height.le c7Client.latest_height C2.latest_height ∧
      (Height.lt c7Header.height c7Client.latest_height →
        (∃ c, ((update_state c7Client "client-70"
          (AnyMsg.headerMsg c7Header) c7Store).2).consensus_state "client-70"
          c7Header.height = some c) ∧
        C2.latest_height = c7Client.latest_height)) ∧
    Height.le c7Client.latest_height c7Client.latest_height :=
  update_state_latest_monotone_fill_in c7Client "client-70" c7Header c7Store
    ((update_state c7Client "client-70" (AnyMsg.headerMsg c7Header)
      c7Store).2) c7Store [Height.mk 0 7] [] c7Client rfl (by decide) rfl rfl

/-- Concrete client for the idempotence claim. -/
def c1Client : ClientStateType :=
  ClientStateType.mk "chain-1" (TrustThreshold.mk 1 3) 10 20 1 (Height.mk 0 1)
    none [] [] (AllowUpdate.mk false false)

/-- Concrete header for the idempotence claim. -/
def c1Header : TmHeader := TmHeader.mk (Height.mk 0 3) 50 "a1" "n1"

/-- Concrete empty store whose host timestamp is not convertible to a
Tendermint time. -/
def c1Store : Store := Store.mk [] [] [] (Timestamp.mk none) (Height.mk 0 4)

/-- C1 counterexample: on an empty store with an unconvertible host
timestamp, the first `update_state` call succeeds and returns the singleton
header height, but the immediately repeated identical call fails with
`InvalidTimestamp` (its pruning pass must now convert the host timestamp for
the freshly stored height), so the two calls do not both return the header
height and the double call is not equivalent to the single call. -/
theorem update_state_idempotent_counterexample :
    (update_state c1Client "client-1" (AnyMsg.headerMsg c1Header)
      c1Store).1 = .ok [Height.mk 0 3] ∧
    (update_state c1Client "client-1" (AnyMsg.headerMsg c1Header)
      ((update_state c1Client "client-1" (AnyMsg.headerMsg c1Header)
        c1Store).2)).1 = .error .invalidTimestamp := by
  decide

/-- The store produced by the write branch of `update_state` on top of a
post-prune store with client-state entries `A`, archive entries `B`, metadata
entries `M` and host clock `(ts0, hh0)`. -/
def writtenStore (C : ClientStateType) (cid : ClientId) (H : TmHeader)
    (A : List (ClientId × ClientStateType))
    (B : List ((ClientId × Height) × ConsensusStateType))
    (M : List ((ClientId × Height) × UpdateMeta)) (ts0 : Timestamp)
    (hh0 : Height) : Store :=
  Store.mk
    (insertKey cid
      { C with latest_height := Height.max C.latest_height H.height } A)
    (insertKey (cid, H.height) (ConsensusStateType.from_header H) B)
    (insertKey (cid, H.height) (UpdateMeta.mk ts0 hh0) M) ts0 hh0

/-- The store left when pruning deletes exactly the freshly written consensus
state and its metadata out of `writtenStore`. -/
def residueStore (C : ClientStateType) (cid : ClientId) (H : TmHeader)
    (A : List (ClientId × ClientStateType))
    (B : List ((ClientId × Height) × ConsensusStateType))
    (M : List ((ClientId × Height) × UpdateMeta)) (ts0 : Timestamp)
    (hh0 : Height) : Store :=
  Store.mk
    (insertKey cid
      { C with latest_height := Height.max C.latest_height H.height } A)
    B (eraseKey (cid, H.height) M) ts0 hh0

/-- After pruning has deleted exactly the freshly written consensus state and
its metadata out of an `update_state` result store, the remainder of the call
re-creates the very same store: the helper captures the write-back step of
the repeated call. -/
theorem update_state_reinsert (C : ClientStateType) (cid : ClientId)
    (H : TmHeader) (A : List (ClientId × ClientStateType))
    (B : List ((ClientId × Height) × ConsensusStateType))
    (M : List ((ClientId × Height) × UpdateMeta)) (ts0 : Timestamp)
    (hh0 : Height) (hnone : lookupKey (cid, H.height) B = none)
    (hprune : prune_oldest_consensus_state C cid
      (writtenStore C cid H A B M ts0 hh0) =
      (.ok (), residueStore C cid H A B M ts0 hh0)) :
    update_state C cid (AnyMsg.headerMsg H)
      (writtenStore C cid H A B M ts0 hh0) =
    (.ok [H.height], writtenStore C cid H A B M ts0 hh0) := by
  have hdup2 : (residueStore C cid H A B M ts0 hh0).consensus_state cid
      H.height = none := by
    simpa [residueStore, Store.consensus_state] using hnone
  simp only [update_state, TmHeader.try_from, hprune, hdup2,
    ClientStateType.with_header, Prod.mk.injEq, Except.ok.injEq]
  simp [writtenStore, residueStore, Store.store_consensus_state,
    Store.store_client_state, Store.store_update_meta, insertKey, eraseKey,
    eraseKey_idem]

/-- A repeated `update_state` call on the store just written by a first
successful call returns the same singleton height and leaves the store
exactly unchanged, provided the host timestamp is convertible to a Tendermint
time and the underlying post-prune store keeps its minimal stored height
unexpired. -/
theorem update_state_second_call (C : ClientStateType) (cid : ClientId)
    (H : TmHeader) (T : Nat) (A : List (ClientId × ClientStateType))
    (B : List ((ClientId × Height) × ConsensusStateType))
    (M : List ((ClientId × Height) × UpdateMeta)) (ts0 : Timestamp)
    (hh0 : Height) (hts0 : ts0.into_tm_time = some T)
    (hnone : lookupKey (cid, H.height) B = none)
    (hmf : MinFresh C cid T (Store.mk A B M ts0 hh0)) :
    update_state C cid (AnyMsg.headerMsg H)
      (writtenStore C cid H A B M ts0 hh0) =
    (.ok [H.height], writtenStore C cid H A B M ts0 hh0) := by
  have hBform : insertKey (cid, H.height) (ConsensusStateType.from_header H) B
      = ((cid, H.height), ConsensusStateType.from_header H) :: B := by
    rw [insertKey, eraseKey_of_lookup_none hnone]
  have hlookup_hh : (writtenStore C cid H A B M ts0 hh0).consensus_state cid
      H.height = some (ConsensusStateType.from_header H) := by
    simp [writtenStore, Store.consensus_state, lookupKey_insertKey_self]
  have hhost : (writtenStore C cid H A B M ts0
      hh0).host_timestamp.into_tm_time = some T := hts0
  have hheights : (writtenStore C cid H A B M ts0
      hh0).consensus_state_heights cid = H.height :: heightsOfList cid B := by
    show heightsOfList cid
      (insertKey (cid, H.height) (ConsensusStateType.from_header H) B) =
      H.height :: heightsOfList cid B
    rw [hBform]
    simp [heightsOfList]
  have hnoop : prune_oldest_consensus_state C cid
      (writtenStore C cid H A B M ts0 hh0) =
      (.ok (), writtenStore C cid H A B M ts0 hh0) →
      update_state C cid (AnyMsg.headerMsg H)
        (writtenStore C cid H A B M ts0 hh0) =
      (.ok [H.height], writtenStore C cid H A B M ts0 hh0) := by
    intro hp2
    simp only [update_state, TmHeader.try_from, hp2, hlookup_hh]
  cases cs0 : List.insertionSort Height.le (heightsOfList cid B) with
  | nil =>
    by_cases hfH : T < H.time + C.trusting_period
    · refine hnoop ?_
      unfold prune_oldest_consensus_state
      rw [hheights]
      simp [List.insertionSort, cs0, List.orderedInsert, pruneLoop,
        hlookup_hh, hhost, ConsensusStateType.from_header, hfH]
    · refine update_state_reinsert C cid H A B M ts0 hh0 hnone ?_
      unfold prune_oldest_consensus_state
      rw [hheights]
      simp [List.insertionSort, cs0, List.orderedInsert, pruneLoop,
        writtenStore, residueStore, Store.consensus_state,
        lookupKey_insertKey_self, hts0, ConsensusStateType.from_header, hfH,
        Store.delete_consensus_state, Store.delete_update_meta,
        eraseKey_insertKey_self, eraseKey_of_lookup_none hnone]
  | cons k0 s0p =>
    have hk0S : k0 ∈ heightsOfList cid B := by
      have hm : k0 ∈ List.insertionSort Height.le (heightsOfList cid B) := by
        rw [cs0]
        exact List.mem_cons_self _ _
      exact (List.perm_insertionSort Height.le _).mem_iff.mp hm
    obtain ⟨c0, hc0⟩ := mem_heights_iff_lookup.mp hk0S
    have hk0ne : k0 ≠ H.height := by
      intro e
      rw [e, hnone] at hc0
      cases hc0
    have hsortedS : List.Sorted Height.le (k0 :: s0p) := by
      rw [← cs0]
      exact List.sorted_insertionSort Height.le _
    have hmin0 : ∀ k2, k2 ∈ heightsOfList cid B → Height.le k0 k2 := by
      intro k2 hk2
      have hm : k2 ∈ k0 :: s0p := by
        rw [← cs0]
        exact (List.perm_insertionSort Height.le _).mem_iff.mpr hk2
      rcases List.mem_cons.mp hm with e | hm2
      · rw [e]
        exact Height.le_refl _
      · exact (List.sorted_cons.mp hsortedS).1 k2 hm2
    have hfresh0 : T < c0.timestamp + C.trusting_period :=
      hmf k0 c0 hk0S hc0 hmin0
    by_cases hcmp : Height.le H.height k0
    · by_cases hfH : T < H.time + C.trusting_period
      · refine hnoop ?_
        unfold prune_oldest_consensus_state
        rw [hheights]
        simp [List.insertionSort, cs0, List.orderedInsert, hcmp, pruneLoop,
          hlookup_hh, hhost, ConsensusStateType.from_header, hfH]
      · refine update_state_reinsert C cid H A B M ts0 hh0 hnone ?_
        unfold prune_oldest_consensus_state
        rw [hheights]
        simp [List.insertionSort, cs0, List.orderedInsert, hcmp, pruneLoop,
          writtenStore, residueStore, Store.consensus_state,
          lookupKey_insertKey_self, hts0, ConsensusStateType.from_header,
          hfH, hfresh0, hc0, Store.delete_consensus_state,
          Store.delete_update_meta, eraseKey_insertKey_self,
          eraseKey_of_lookup_none hnone]
    · have hkeyne : ((cid, H.height) : ClientId × Height) ≠ (cid, k0) := by
        intro e
        exact hk0ne (congrArg Prod.snd e).symm
      have hlookup_k0 : (writtenStore C cid H A B M ts0 hh0).consensus_state
          cid k0 = some c0 := by
        rw [writtenStore, Store.consensus_state]
        rw [show (Store.mk
          (insertKey cid
            { C with latest_height := Height.max C.latest_height H.height } A)
          (insertKey (cid, H.height) (ConsensusStateType.from_header H) B)
          (insertKey (cid, H.height) (UpdateMeta.mk ts0 hh0) M) ts0
          hh0).consensusStates =
          insertKey (cid, H.height) (ConsensusStateType.from_header H) B
          from rfl]
        rw [lookupKey_insertKey_ne _ _ hkeyne]
        exact hc0
      refine hnoop ?_
      unfold prune_oldest_consensus_state
      rw [hheights]
      simp [List.insertionSort, cs0, List.orderedInsert, hcmp, pruneLoop,
        hlookup_k0, hhost, hfresh0]

/-- C1 amended: idempotence of `update_state` under a convertible host
timestamp — if the host timestamp converts to a Tendermint time and
`update_state(C, H)` succeeds, then the immediately repeated call with the
same client state, header and host clock succeeds as well, returns the same
singleton `[H.height]`, and leaves the store exactly equal to the store after
the single call; in particular the update metadata stamped by the first call
is preserved.  (Timestamp arithmetic is modelled as non-overflowing.) -/
theorem update_state_idempotent (C : ClientStateType) (cid : ClientId)
    (H : TmHeader) (T : Nat) (st st1 : Store) (hs : List Height)
    (hT : st.host_timestamp.into_tm_time = some T)
    (h1 : update_state C cid (AnyMsg.headerMsg H) st = (.ok hs, st1)) :
    hs = [H.height] ∧
    update_state C cid (AnyMsg.headerMsg H) st1 =
      (.ok [H.height], st1) := by
  rcases hpp : prune_oldest_consensus_state C cid st with ⟨e, stp⟩
  cases e with
  | error err => simp [update_state, TmHeader.try_from, hpp] at h1
  | ok u =>
    have hfr := prune_frame C cid st
    rw [hpp] at hfr
    have hTp : stp.host_timestamp.into_tm_time = some T := by
      rw [show stp.host_timestamp = st.host_timestamp from hfr.2.1]
      exact hT
    have hmf : MinFresh C cid T stp := prune_minFresh hT hpp
    cases hdup : stp.consensus_state cid H.height with
    | some c =>
      simp only [update_state, TmHeader.try_from, hpp, hdup, Prod.mk.injEq,
        Except.ok.injEq] at h1
      obtain ⟨hhs, hst1⟩ := h1
      subst hst1
      refine ⟨hhs.symm, ?_⟩
      have hp2 := prune_no_op_of_minFresh C cid T stp hTp hmf
      simp only [update_state, TmHeader.try_from, hp2, hdup]
    | none =>
      simp only [update_state, TmHeader.try_from, hpp, hdup,
        ClientStateType.with_header, Prod.mk.injEq, Except.ok.injEq] at h1
      obtain ⟨hhs, hst1⟩ := h1
      refine ⟨hhs.symm, ?_⟩
      rw [← hst1]
      obtain ⟨A, B, M, ts0, hh0⟩ := stp
      have hnone : lookupKey (cid, H.height) B = none := hdup
      have hts0 : ts0.into_tm_time = some T := hTp
      exact update_state_second_call C cid H T A B M ts0 hh0 hts0 hnone hmf

/-- Concrete empty store with a convertible host timestamp. -/
def c1wStore : Store :=
  Store.mk [] [] [] (Timestamp.mk (some 100)) (Height.mk 0 4)

/-- C1 witness: the amended idempotence theorem at a concrete store and
header; the repeated call happens to exercise the path where the pruning pass
first deletes the freshly written (already expired) state and the call then
rewrites it identically. -/
theorem update_state_idempotent_witness :
    ([Height.mk 0 3] : List Height) = [c1Header.height] ∧
    update_state c1Client "client-1" (AnyMsg.headerMsg c1Header)
      ((update_state c1Client "client-1" (AnyMsg.headerMsg c1Header)
        c1wStore).2) =
      (.ok [c1Header.height],
        (update_state c1Client "client-1" (AnyMsg.headerMsg c1Header)
          c1wStore).2) :=
  update_state_idempotent c1Client "client-1" c1Header 100 c1wStore
    ((update_state c1Client "client-1" (AnyMsg.headerMsg c1Header)
      c1wStore).2) [Height.mk 0 3] rfl (by decide)

end IbcTm
